import Mathlib

/-!
Shallow embedding of the nodash backend data-access layer
(`packages/backend/src/db/db.ts`, `packages/backend/src/routes/notes.ts`,
`packages/backend/src/types/note.schema.ts`, `packages/backend/src/db/d1.ts`).

The SQLite `notes` table is a list of rows keyed by rowid.  `notes_fts` is an
fts5 external-content table (`content=notes, content_rowid=rowid`): it stores
only an inverted index, modelled as a list of (term, rowid) postings, and is
maintained by the three AFTER triggers from `Db.initSchema`.  Because the
triggers run AFTER the mutation of the content table, the de-indexing half of
an fts5 update/delete reads the already-mutated `notes` row: a plain
`update notes_fts set ...` de-indexes the NEW values (leaving the old tokens
in place), and `delete from notes_fts` reads a missing row (NULLs) and
de-indexes nothing.  The model reproduces this: postings of superseded titles
and contents, and of deleted notes, survive in the index.  Timestamps are the
integer milliseconds of `Date.now()`; `Date` values in the `Note` domain type
are modelled by those integers.  `uuidv4()` and `Date.now()` are modelled as
explicit parameters of the operations that call them.
-/

namespace Nodash

/-- Raw row of the `notes` table (interface `NoteRow` in note.schema.ts);
`archived` is the 0/1 integer SQLite stores. -/
structure NoteRow where
  id : String
  title : String
  content : String
  created_at : Int
  updated_at : Int
  archived : Int
deriving DecidableEq, Repr

/-- Domain type `Note` (note.schema.ts); `createdAt`/`updatedAt` are the
epoch-millisecond values wrapped in `new Date(...)` by `mapRowToNote`. -/
structure Note where
  id : String
  title : String
  content : String
  createdAt : Int
  updatedAt : Int
  archived : Bool
deriving DecidableEq, Repr

/-- One posting of the `notes_fts` inverted index: a case-folded term
mapped to the rowid of the document that contained it when it was
indexed. -/
structure Posting where
  term : String
  rowid : Nat
deriving DecidableEq, Repr

/-- Database state: the `notes` table as (rowid, row) pairs in insertion
order, the `notes_fts` index postings, and the next rowid SQLite would
assign. -/
structure Store where
  rows : List (Nat × NoteRow)
  fts : List Posting
  nextRowid : Nat
deriving DecidableEq, Repr

/-- `Db.mapRowToNote` (db.ts): converts a raw row to the domain type. -/
def mapRowToNote (row : NoteRow) : Note :=
  { id := row.id
    title := row.title
    content := row.content
    createdAt := row.created_at
    updatedAt := row.updated_at
    archived := row.archived == 1 }

/-- The row `select * from notes where id = ?` returns (first match). -/
def rowById (s : Store) (id : String) : Option NoteRow :=
  (s.rows.find? (fun p => p.2.id == id)).map (·.2)

/-! ### Strings: case folding, FTS5 tokenization, substring test -/

/-- ASCII case folding, modelling the case-insensitivity of the fts5
`unicode61` tokenizer (the claims only use ASCII text). -/
def lowerStr (s : String) : String := String.mk (s.data.map Char.toLower)

/-- Splits a character stream into maximal runs of alphanumeric characters,
case-folded: the fts5 `unicode61` tokenizer restricted to ASCII.  The
accumulator holds the current token reversed. -/
def ftsTokensAux : List Char → List Char → List String
  | [], cur => if cur.isEmpty then [] else [String.mk cur.reverse]
  | c :: rest, cur =>
      if c.isAlphanum then ftsTokensAux rest (c.toLower :: cur)
      else if cur.isEmpty then ftsTokensAux rest []
      else String.mk cur.reverse :: ftsTokensAux rest []

/-- Tokens the fts5 index stores for a document column. -/
def ftsTokens (s : String) : List String := ftsTokensAux s.data []

/-- Splits a query string on spaces (the accumulator holds the current
chunk reversed); models fts5 parsing a match expression into terms. -/
def splitSpacesAux : List Char → List Char → List String
  | [], cur => if cur.isEmpty then [] else [String.mk cur.reverse]
  | c :: rest, cur =>
      if c == ' ' then
        if cur.isEmpty then splitSpacesAux rest []
        else String.mk cur.reverse :: splitSpacesAux rest []
      else splitSpacesAux rest (c :: cur)

/-- The terms of an fts5 match expression: space-separated chunks. -/
def queryTerms (q : String) : List String := splitSpacesAux q.data []

/-- A plain fts5 bareword term: nonempty, alphanumeric ASCII. -/
def bareword (t : String) : Bool :=
  !t.data.isEmpty && t.data.all Char.isAlphanum

/-- A match expression this model gives semantics to: one or more bareword
terms (fts5 treats adjacent terms as an implicit AND).  Anything else is
mapped to the fts5 syntax error the real engine raises on malformed input. -/
def validMatchExpr (q : String) : Bool :=
  !(queryTerms q).isEmpty && (queryTerms q).all bareword

/-- The tokens fts5 extracts from one document (title and content of one
`notes` row). -/
def docTokens (title content : String) : List String :=
  ftsTokens title ++ ftsTokens content

/-- A document (title and content) matches a term when the case-folded
term occurs as a whole token. -/
def termMatches (t : String) (title content : String) : Bool :=
  (docTokens title content).contains (lowerStr t)

/-- `notes_fts match q` restricted to one rowid: every term of the match
expression has a posting for that rowid in the index. -/
def ftsMatchRowid (q : String) (rid : Nat) (fts : List Posting) : Bool :=
  (queryTerms q).all (fun t =>
    fts.any (fun pst => pst.term == lowerStr t && pst.rowid == rid))

/-- Character-list version of `isPrefixOf`, for the substring test. -/
def charsStartWith : List Char → List Char → Bool
  | [], _ => true
  | _ :: _, [] => false
  | a :: as, b :: bs => a == b && charsStartWith as bs

/-- Does `pat` occur as a contiguous sublist of `l`? -/
def charsContain (pat : List Char) : List Char → Bool
  | [] => charsStartWith pat []
  | c :: rest => charsStartWith pat (c :: rest) || charsContain pat rest

/-- Case-insensitive substring test: the predicate the claim about search
uses ("q is a substring of title or content, compared case-insensitively").
This definition follows the spec wording, not the code. -/
def substringCI (q t : String) : Bool :=
  charsContain (lowerStr q).data (lowerStr t).data

/-! ### SQL values, ordering, limit/offset -/

/-- SQLite value as stored in the two sortable column types of `notes`. -/
inductive SqlVal where
  | int (i : Int)
  | text (s : String)
deriving DecidableEq, Repr

/-- SQLite ordering: integers sort before text, text compares as BINARY
(codepoint order coincides with byte order on the ASCII data used here). -/
def sqlLe : SqlVal → SqlVal → Bool
  | .int i, .int j => i ≤ j
  | .int _, .text _ => true
  | .text _, .int _ => false
  | .text a, .text b => a ≤ b

/-- Column lookup for `order by ${dbSortBy}`: `none` models the SQL error an
unknown column name raises. -/
def sortVal (col : String) : Option (NoteRow → SqlVal) :=
  match col with
  | "id" => some (fun r => .text r.id)
  | "title" => some (fun r => .text r.title)
  | "content" => some (fun r => .text r.content)
  | "created_at" => some (fun r => .int r.created_at)
  | "updated_at" => some (fun r => .int r.updated_at)
  | "archived" => some (fun r => .int r.archived)
  | _ => none

/-- Insert into a sorted list, keeping earlier elements first on ties. -/
def orderedInsertB (le : α → α → Bool) (a : α) : List α → List α
  | [] => [a]
  | b :: l => if le b a then b :: orderedInsertB le a l else a :: b :: l

/-- Stable insertion sort; ties keep table order (SQLite leaves tie order
unspecified, and no claim depends on it). -/
def insertionSortB (le : α → α → Bool) : List α → List α
  | [] => []
  | a :: l => orderedInsertB le a (insertionSortB le l)

/-- `limit ? offset ?` with SQLite semantics: a negative offset is treated
as 0; a negative limit means no limit. -/
def applyLimitOffset (limit offset : Int) (l : List α) : List α :=
  let l' := l.drop (max offset 0).toNat
  if limit < 0 then l' else l'.take limit.toNat

/-! ### Request validation schemas (note.schema.ts) -/

/-- `createNoteSchema`: the create request carries only `title` and
`content` — there is no field for the archived flag or the timestamps. -/
structure CreateNoteRequest where
  title : String
  content : String
deriving DecidableEq, Repr

/-- `updateNoteSchema`: all three fields optional. -/
structure UpdateNoteRequest where
  title : Option String := none
  content : Option String := none
  archived : Option Bool := none
deriving DecidableEq, Repr

/-- `z.string().min(1).max(255)` for the title. -/
def titleValid (t : String) : Bool := 1 ≤ t.length && t.length ≤ 255

/-- `createNoteSchema` validation: title bounded, content any string. -/
def createNoteSchemaValid (r : CreateNoteRequest) : Bool := titleValid r.title

/-- `updateNoteSchema` validation: per-field checks plus the `.refine` that
at least one of title/content/archived is provided. -/
def updateNoteSchemaValid (r : UpdateNoteRequest) : Bool :=
  (match r.title with
   | some t => titleValid t
   | none => true) &&
  (r.title.isSome || r.content.isSome || r.archived.isSome)

/-! ### Db operations (db.ts)

Each operation models one public method of `Db`.  The fts trigger effects
from `initSchema` are folded into the statement that fires them, exactly as
SQLite runs the triggers as part of the mutating statement. -/

/-- `Db.getNoteById`. -/
def getNoteById (id : String) (s : Store) : Option Note :=
  (rowById s id).map mapRowToNote

/-- `Db.createNote`.  `freshId` models the `uuidv4()` call and `now` the
`Date.now()` call.  A duplicate id violates the primary key, which SQLite
reports as an error; the `notes_fts_insert` trigger indexes the new
title/content values in the same statement. -/
def createNote (data : CreateNoteRequest) (freshId : String) (now : Int)
    (s : Store) : Except String (Note × Store) :=
  if s.rows.any (fun p => p.2.id == freshId) then
    .error "UNIQUE constraint failed: notes.id"
  else
    let row : NoteRow :=
      { id := freshId
        title := data.title
        content := data.content
        created_at := now
        updated_at := now
        archived := 0 }
    let s' : Store :=
      { rows := s.rows ++ [(s.nextRowid, row)]
        fts := s.fts ++ (docTokens row.title row.content).map
          (fun tok => { term := tok, rowid := s.nextRowid })
        nextRowid := s.nextRowid + 1 }
    .ok (mapRowToNote row, s')

/-- The row produced by `update notes set <fields>, updated_at = ? where
id = ?` for one matching row: exactly the columns whose fields are present
in the request, plus `updated_at`. -/
def applyUpdateRow (data : UpdateNoteRequest) (now : Int) (r : NoteRow) :
    NoteRow :=
  { r with
    title := data.title.getD r.title
    content := data.content.getD r.content
    archived := match data.archived with
      | some b => if b then 1 else 0
      | none => r.archived
    updated_at := now }

/-- Effect of the `notes_fts_update` trigger's
`update notes_fts set title = new.title, content = new.content where
rowid = new.rowid` for one updated rowid.  fts5 processes the statement as
de-index + re-index; on an external-content table the de-indexed values
are read from the content table, which at AFTER-trigger time already
holds the NEW values: postings of the new tokens are removed and re-added,
and postings of the old tokens are left in the index. -/
def ftsUpdateTrigger (rid : Nat) (newTitle newContent : String)
    (fts : List Posting) : List Posting :=
  fts.filter (fun pst =>
      !(pst.rowid == rid && (docTokens newTitle newContent).contains pst.term))
    ++ (docTokens newTitle newContent).map (fun tok => { term := tok, rowid := rid })

/-- `Db.updateNote`: read the existing row, return `none` untouched when it
is absent, otherwise run the update statement (the `notes_fts_update`
trigger fires per updated rowid) and re-read. -/
def updateNote (id : String) (data : UpdateNoteRequest) (now : Int)
    (s : Store) : Option Note × Store :=
  match getNoteById id s with
  | none => (none, s)
  | some _ =>
    let updated := s.rows.filterMap
      (fun p => if p.2.id == id then some (p.1, applyUpdateRow data now p.2)
                else none)
    let s' : Store :=
      { rows := s.rows.map
          (fun p => if p.2.id == id then (p.1, applyUpdateRow data now p.2)
                    else p)
        fts := updated.foldl
          (fun fts u => ftsUpdateTrigger u.1 u.2.title u.2.content fts)
          s.fts
        nextRowid := s.nextRowid }
    (getNoteById id s', s')

/-- `Db.deleteNote`: `delete from notes where id = ?`; returns
`changes > 0`.  The `notes_fts_delete` trigger runs
`delete from notes_fts where rowid = old.rowid`, which on an
external-content table de-indexes the values read from the content
table — but the `notes` row is already gone at AFTER-trigger time, so
nothing is de-indexed and the postings of the deleted note survive. -/
def deleteNote (id : String) (s : Store) : Bool × Store :=
  let deleted := s.rows.filter (fun p => p.2.id == id)
  let s' : Store :=
    { rows := s.rows.filter (fun p => !(p.2.id == id))
      fts := s.fts
      nextRowid := s.nextRowid }
  (deleted.length > 0, s')

/-- `sortOrder` parameter of `Db.getNotes`. -/
inductive SortOrder where
  | asc
  | desc
deriving DecidableEq, Repr

/-- Options object of `Db.getNotes`; `none` models an absent property, the
defaults are applied by the destructuring inside `getNotes`. -/
structure GetNotesOptions where
  archived : Option Bool := none
  limit : Option Int := none
  offset : Option Int := none
  sortBy : Option String := none
  sortOrder : Option SortOrder := none

/-- The camelCase-to-snake_case conversion `getNotes` applies to `sortBy`
(`replace(/[A-Z]/g, letter => `_` + lower(letter))`). -/
def camelToSnake (s : String) : String :=
  s.data.foldl
    (fun acc c =>
      if c.isUpper then acc ++ "_" ++ String.singleton c.toLower
      else acc ++ String.singleton c)
    ""

/-- `Db.getNotes`: filter on the archived flag, `order by ${dbSortBy}
${sortOrder}`, then limit/offset; the second query counts the filtered
rows.  `none` models the SQL error an unknown sort column raises.  SQLite
leaves the order of ties unspecified; this model keeps table order. -/
def getNotes (options : GetNotesOptions) (s : Store) :
    Option (List Note × Nat) :=
  let archived := options.archived.getD false
  let limit := options.limit.getD 100
  let offset := options.offset.getD 0
  let sortBy := options.sortBy.getD "updated_at"
  let sortOrder := options.sortOrder.getD .desc
  let dbSortBy := camelToSnake sortBy
  match sortVal dbSortBy with
  | none => none
  | some key =>
    let archivedVal : Int := if archived then 1 else 0
    let filtered := s.rows.filter (fun p => p.2.archived == archivedVal)
    let le := fun (a b : Nat × NoteRow) =>
      match sortOrder with
      | .asc => sqlLe (key a.2) (key b.2)
      | .desc => sqlLe (key b.2) (key a.2)
    let sorted := insertionSortB le filtered
    some ((applyLimitOffset limit offset sorted).map (fun p => mapRowToNote p.2),
          filtered.length)

/-- `Db.searchNotes`: `notes_fts match ?` selects the rowids whose index
postings satisfy the match expression; the join with `notes` on rowid
keeps only live rows, and the WHERE clause adds `n.archived = 0`; then
limit/offset; the second query counts all matches.  A malformed match
expression raises the fts5 syntax error.  `order by rank` (bm25
relevance) is not modelled: matches stay in table order, and no claim
depends on the order within the result. -/
def searchNotes (query : String) (limit : Int := 50) (offset : Int := 0)
    (s : Store) : Except String (List Note × Nat) :=
  if !validMatchExpr query then .error "fts5: syntax error" else
  let matched := s.rows.filter
    (fun p => ftsMatchRowid query p.1 s.fts && p.2.archived == 0)
  .ok ((applyLimitOffset limit offset matched).map (fun p => mapRowToNote p.2),
       matched.length)

/-- `D1Binding.transaction` (d1.ts): `return await fn()` — the function is
run as-is, with whatever effect it has on the store, and its result is
returned; no begin/commit wraps it.  Effectful `fn` is modelled as a state
function on an arbitrary state type. -/
def d1Transaction (fn : σ → α × σ) : σ → α × σ :=
  fun s => fn s

/-! ### Route handlers (routes/notes.ts) -/

/-- Error body shape `{error, message, statusCode}` (interface
`ErrorResponse` in note.schema.ts). -/
structure ErrorResponse where
  error : String
  message : String
  statusCode : Nat
deriving DecidableEq, Repr

/-- Response body of a notes route. `invalid` stands for the zod issue
payload `zValidator` sends with a 400 (its shape is not modelled);
`empty` is the `c.body(null)` of a 204. -/
inductive Body where
  | note (n : Note)
  | err (e : ErrorResponse)
  | invalid
  | empty
deriving DecidableEq, Repr

/-- Single-quote character, for the not-found message text. -/
def sq : String := String.singleton (Char.ofNat 39)

/-- The 404 body built by the routes:
`{error: 'NotFound', message: "Note with id '<id>' not found",
statusCode: 404}`. -/
def notFoundBody (id : String) : ErrorResponse :=
  { error := "NotFound"
    message := "Note with id " ++ sq ++ id ++ sq ++ " not found"
    statusCode := 404 }

/-- `PUT /api/notes/:id` after the `noteIdSchema` param check: the
`updateNoteSchema` body check (400 on failure, store untouched), then
`Db.updateNote`, 404 when the note is absent, 200 with the note
otherwise. -/
def putNoteRoute (id : String) (req : UpdateNoteRequest) (now : Int)
    (s : Store) : Nat × Body × Store :=
  if updateNoteSchemaValid req then
    match updateNote id req now s with
    | (some n, s') => (200, .note n, s')
    | (none, s') => (404, .err (notFoundBody id), s')
  else (400, .invalid, s)

/-- `DELETE /api/notes/:id` after the `noteIdSchema` param check:
`Db.deleteNote`, then 204 with an empty body on success or 404 with the
not-found body otherwise. -/
def deleteNoteRoute (id : String) (s : Store) : Nat × Body × Store :=
  let res := deleteNote id s
  if res.1 then (204, .empty, res.2) else (404, .err (notFoundBody id), res.2)

/-! ### Operation sequences and store invariants -/

/-- One mutating `Db` call, with the values its internal `uuidv4()` /
`Date.now()` calls produce. -/
inductive Op where
  | create (data : CreateNoteRequest) (freshId : String) (now : Int)
  | update (id : String) (data : UpdateNoteRequest) (now : Int)
  | delete (id : String)
deriving DecidableEq, Repr

/-- Store effect of one mutating call (a failed insert leaves the store
unchanged, as the statement raises). -/
def execOp (s : Store) : Op → Store
  | .create data freshId now =>
      match createNote data freshId now s with
      | .ok r => r.2
      | .error _ => s
  | .update id data now => (updateNote id data now s).2
  | .delete id => (deleteNote id s).2

/-- Store effect of a sequence of mutating calls. -/
def execOps (s : Store) : List Op → Store
  | [] => s
  | op :: rest => execOps (execOp s op) rest

/-- The clock value after an operation: the `Date.now()` it observed, or
the previous clock for `delete`, which reads no clock. -/
def nextTime (t : Int) : Op → Int
  | .create _ _ now => now
  | .update _ _ now => now
  | .delete _ => t

/-- The wall clock is monotone along the sequence: each operation observes
a `Date.now()` at least the previous one. -/
def timesChain (t : Int) : List Op → Prop
  | [] => True
  | op :: rest => t ≤ nextTime t op ∧ timesChain (nextTime t op) rest

/-- Timestamp invariant at clock `t`: every stored row has
`created_at ≤ updated_at` and no timestamp is in the future. -/
def Inv (s : Store) (t : Int) : Prop :=
  ∀ p ∈ s.rows, p.2.created_at ≤ p.2.updated_at ∧ p.2.updated_at ≤ t

/-- The state right after `Db.initSchema` on a fresh database: empty
table, empty index, first rowid 1. -/
def initialStore : Store := ⟨[], [], 1⟩

/-- Index coverage: every token of every stored note's current title and
content has a posting in `notes_fts`.  This is the half of index
maintenance the triggers do achieve (the index may additionally hold
stale postings of superseded or deleted documents). -/
def FtsCovers (s : Store) : Prop :=
  ∀ p ∈ s.rows, ∀ tok ∈ docTokens p.2.title p.2.content,
    ({ term := tok, rowid := p.1 } : Posting) ∈ s.fts

/-- Structural store invariant maintained by the schema and triggers:
rowids are below the next free rowid and pairwise distinct, and the index
covers the current documents. -/
structure StoreInv (s : Store) : Prop where
  rowid_lt : ∀ p ∈ s.rows, p.1 < s.nextRowid
  rowid_nodup : (s.rows.map (·.1)).Nodup
  covers : FtsCovers s

/-! ### Helper lemmas -/

/-- Membership is invariant under `orderedInsertB`. -/
lemma mem_orderedInsertB {le : α → α → Bool} {a x : α} {l : List α} :
    x ∈ orderedInsertB le a l ↔ x = a ∨ x ∈ l := by
  induction l with
  | nil => simp [orderedInsertB]
  | cons b t ih =>
    unfold orderedInsertB
    by_cases h : le b a
    · rw [if_pos h]
      simp only [List.mem_cons, ih]
      tauto
    · rw [if_neg h]
      simp [List.mem_cons]

/-- Membership is invariant under `insertionSortB`. -/
lemma mem_insertionSortB {le : α → α → Bool} {x : α} {l : List α} :
    x ∈ insertionSortB le l ↔ x ∈ l := by
  induction l with
  | nil => simp [insertionSortB]
  | cons b t ih => simp [insertionSortB, mem_orderedInsertB, ih]

/-- `applyLimitOffset` only selects elements of the list. -/
lemma mem_applyLimitOffset {limit offset : Int} {x : α} {l : List α}
    (h : x ∈ applyLimitOffset limit offset l) : x ∈ l := by
  unfold applyLimitOffset at h
  split at h
  · exact List.mem_of_mem_drop h
  · exact List.mem_of_mem_drop (List.mem_of_mem_take h)

/-- With offset 0, a nonnegative limit at least the length, and the list
returned whole, `applyLimitOffset` is the identity. -/
lemma applyLimitOffset_eq_self {limit : Int} {l : List α}
    (h0 : 0 ≤ limit) (hlen : l.length ≤ limit.toNat) :
    applyLimitOffset limit 0 l = l := by
  unfold applyLimitOffset
  rw [if_neg (by omega)]
  simp [List.take_of_length_le hlen]

/-- A `find?` hit in a prefix survives appending. -/
lemma find?_append_some {p : α → Bool} {l l₂ : List α} {x : α}
    (h : l.find? p = some x) : (l ++ l₂).find? p = some x := by
  rw [List.find?_append, h]; rfl

/-- A `find?` miss in a prefix defers to the suffix. -/
lemma find?_append_none {p : α → Bool} {l l₂ : List α}
    (h : l.find? p = none) : (l ++ l₂).find? p = l₂.find? p := by
  rw [List.find?_append, h]; rfl

/-- `find?` commutes with a map that does not change the predicate. -/
lemma find?_map_pres {p : α → Bool} {f : α → α} {l : List α}
    (hp : ∀ x, p (f x) = p x) : (l.map f).find? p = (l.find? p).map f := by
  induction l with
  | nil => rfl
  | cons a t ih =>
    by_cases ha : p a
    · simp [List.find?_cons, hp, ha]
    · simp only [List.map_cons, List.find?_cons, hp a, ha]
      simpa using ih

/-- `find?` ignores a filter that keeps every element it could return. -/
lemma find?_filter_keep {p q : α → Bool} {l : List α}
    (h : ∀ x, p x = true → q x = true) :
    (l.filter q).find? p = l.find? p := by
  induction l with
  | nil => rfl
  | cons a t ih =>
    by_cases ha : p a
    · have : q a = true := h a ha
      simp [List.filter_cons, this, List.find?_cons, ha]
    · by_cases hq : q a
      · simp only [List.filter_cons, hq, if_true, List.find?_cons,
          Bool.not_eq_true] at *
        simp [ha, ih]
      · simp only [List.filter_cons, hq, if_false, List.find?_cons,
          Bool.not_eq_true] at *
        simp [ha, ih]

/-- `find?` misses entirely in a filter that drops every element it could
return. -/
lemma find?_filter_drop {p q : α → Bool} {l : List α}
    (h : ∀ x, p x = true → q x = false) :
    (l.filter q).find? p = none := by
  rw [List.find?_eq_none]
  intro a ha hpa
  have := (List.mem_filter.mp ha).2
  rw [h a hpa] at this
  exact Bool.false_ne_true this

/-- In a list with pairwise-distinct keys, two members with the same key
are the same pair. -/
lemma key_inj {l : List (Nat × β)} (hnd : (l.map (·.1)).Nodup)
    {x y : Nat × β} (hx : x ∈ l) (hy : y ∈ l) (hk : x.1 = y.1) : x = y := by
  induction l with
  | nil => cases hx
  | cons a t ih =>
    rw [List.map_cons, List.nodup_cons] at hnd
    rcases List.mem_cons.mp hx with rfl | hx'
    · rcases List.mem_cons.mp hy with rfl | hy'
      · rfl
      · exact absurd (hk ▸ List.mem_map_of_mem (·.1) hy') hnd.1
    · rcases List.mem_cons.mp hy with rfl | hy'
      · exact absurd (hk ▸ List.mem_map_of_mem (·.1) hx') hnd.1
      · exact ih hnd.2 hx' hy'

/-! ### Claim theorems -/

/-- C8: `D1Binding.transaction(fn)` is the same as running `fn` directly —
it returns `fn`'s result and its only store effect is `fn`'s own. -/
theorem d1_transaction_is_noop {σ α : Type} (fn : σ → α × σ) (s : σ) :
    (d1Transaction fn s).1 = (fn s).1 ∧ (d1Transaction fn s).2 = (fn s).2 :=
  ⟨rfl, rfl⟩

/-- Inversion of a successful `createNote`. -/
lemma createNote_ok {data : CreateNoteRequest} {freshId : String} {now : Int}
    {s : Store} {n : Note} {s' : Store}
    (h : createNote data freshId now s = .ok (n, s')) :
    s.rows.any (fun p => p.2.id == freshId) = false ∧
    n = mapRowToNote
      { id := freshId, title := data.title, content := data.content
        created_at := now, updated_at := now, archived := 0 } ∧
    s' = { rows := s.rows ++
             [(s.nextRowid,
               { id := freshId, title := data.title, content := data.content
                 created_at := now, updated_at := now, archived := 0 })]
           fts := s.fts ++ (docTokens data.title data.content).map
             (fun tok => { term := tok, rowid := s.nextRowid })
           nextRowid := s.nextRowid + 1 } := by
  unfold createNote at h
  by_cases hany : s.rows.any (fun p => p.2.id == freshId) = true
  · rw [if_pos hany] at h
    cases h
  · rw [Bool.not_eq_true] at hany
    rw [if_neg (by simp [hany])] at h
    obtain ⟨hn, hs⟩ := Prod.mk.injEq .. ▸ Except.ok.injEq .. ▸ h
    exact ⟨hany, hn.symm, hs.symm⟩

/-- C10: a freshly created note is unarchived with equal creation and
modification timestamps, for every create request (which carries only
title and content, so neither can be set by the caller). -/
theorem createNote_fresh_note_unarchived
    (data : CreateNoteRequest) (freshId : String) (now : Int)
    (s : Store) (n : Note) (s' : Store)
    (h : createNote data freshId now s = .ok (n, s')) :
    n.archived = false ∧ n.createdAt = n.updatedAt ∧
    n.title = data.title ∧ n.content = data.content := by
  obtain ⟨-, hn, -⟩ := createNote_ok h
  subst hn
  exact ⟨rfl, rfl, rfl, rfl⟩

/-- Witness for C10 at a concrete input. -/
theorem createNote_fresh_note_unarchived_witness :
    (⟨"id1", "hello", "world", 10, 10, false⟩ : Note).archived = false ∧
    (⟨"id1", "hello", "world", 10, 10, false⟩ : Note).createdAt =
      (⟨"id1", "hello", "world", 10, 10, false⟩ : Note).updatedAt := by
  have h := createNote_fresh_note_unarchived ⟨"hello", "world"⟩ "id1" 10
    ⟨[], [], 1⟩ ⟨"id1", "hello", "world", 10, 10, false⟩
    ⟨[(1, ⟨"id1", "hello", "world", 10, 10, 0⟩)],
     [⟨"hello", 1⟩, ⟨"world", 1⟩], 2⟩ rfl
  exact ⟨h.1, h.2.1⟩

/-- C6: the note returned by a successful `createNote` is exactly what
`getNoteById` returns for its id afterwards. -/
theorem createNote_getNoteById_roundtrip
    (data : CreateNoteRequest) (freshId : String) (now : Int)
    (s : Store) (n : Note) (s' : Store)
    (h : createNote data freshId now s = .ok (n, s')) :
    getNoteById n.id s' = some n := by
  obtain ⟨hany, hn, hs⟩ := createNote_ok h
  subst hn hs
  have hnone : s.rows.find? (fun p => p.2.id == freshId) = none := by
    rw [List.find?_eq_none]
    intro a ha
    exact (List.any_eq_false.mp hany) a ha
  simp only [getNoteById, rowById, mapRowToNote]
  rw [find?_append_none hnone]
  simp [List.find?_cons, mapRowToNote]

/-- Witness for C6 at a concrete input. -/
theorem createNote_getNoteById_roundtrip_witness :
    getNoteById "id1"
      ⟨[(1, ⟨"id1", "hello", "world", 10, 10, 0⟩)],
       [⟨"hello", 1⟩, ⟨"world", 1⟩], 2⟩ =
      some ⟨"id1", "hello", "world", 10, 10, false⟩ :=
  createNote_getNoteById_roundtrip ⟨"hello", "world"⟩ "id1" 10 ⟨[], [], 1⟩
    ⟨"id1", "hello", "world", 10, 10, false⟩
    ⟨[(1, ⟨"id1", "hello", "world", 10, 10, 0⟩)],
     [⟨"hello", 1⟩, ⟨"world", 1⟩], 2⟩ rfl

/-- C7: `deleteNote` succeeds exactly when a note with the id exists;
afterwards `getNoteById` returns null; and the DELETE route answers a
non-existent id with a 404 carrying the `{error, message, statusCode}`
shape, leaving the store unchanged. -/
theorem deleteNote_spec (id : String) (s : Store) :
    ((deleteNote id s).1 = true ↔ (s.rows.any (fun p => p.2.id == id)) = true) ∧
    getNoteById id (deleteNote id s).2 = none ∧
    ((s.rows.any (fun p => p.2.id == id)) = false →
      deleteNoteRoute id s = (404, .err (notFoundBody id), s)) := by
  refine ⟨?_, ?_, ?_⟩
  · simp only [deleteNote, decide_eq_true_eq, List.any_eq_true]
    constructor
    · intro h
      obtain ⟨a, ha⟩ := List.length_pos_iff_exists_mem.mp h
      exact ⟨a, (List.mem_filter.mp ha).1, (List.mem_filter.mp ha).2⟩
    · rintro ⟨a, ha, hpa⟩
      exact List.length_pos_iff_exists_mem.mpr
        ⟨a, List.mem_filter.mpr ⟨ha, hpa⟩⟩
  · simp only [getNoteById, rowById, deleteNote]
    rw [find?_filter_drop (fun x hx => by simp [hx])]
    rfl
  · intro hnone
    have hfil : s.rows.filter (fun p => p.2.id == id) = [] := by
      rw [List.filter_eq_nil_iff]
      intro a ha
      exact (List.any_eq_false.mp hnone) a ha
    have hkeep : s.rows.filter (fun p => !(p.2.id == id)) = s.rows := by
      rw [List.filter_eq_self]
      intro a ha
      simp [(List.any_eq_false.mp hnone) a ha]
    simp only [deleteNoteRoute, deleteNote, hfil, hkeep]
    simp

/-- Witness for C7 at a concrete input. -/
theorem deleteNote_spec_witness :
    getNoteById "id9" (deleteNote "id9"
      ⟨[(1, ⟨"id9", "hello", "world", 10, 10, 0⟩)],
       [⟨"hello", 1⟩, ⟨"world", 1⟩], 2⟩).2 = none ∧
    deleteNoteRoute "id9" (⟨[], [], 1⟩ : Store) =
      (404, .err (notFoundBody "id9"), ⟨[], [], 1⟩) :=
  ⟨(deleteNote_spec "id9" ⟨[(1, ⟨"id9", "hello", "world", 10, 10, 0⟩)],
      [⟨"hello", 1⟩, ⟨"world", 1⟩], 2⟩).2.1,
   (deleteNote_spec "id9" ⟨[], [], 1⟩).2.2 (by decide)⟩

/-- C5: the default listing and every search return only unarchived
notes, for every store, query, limit, and offset. -/
theorem unarchived_only_in_default_list_and_search (s : Store) :
    (∀ d t, getNotes {} s = some (d, t) → ∀ n ∈ d, n.archived = false) ∧
    (∀ q limit offset d t, searchNotes q limit offset s = .ok (d, t) →
      ∀ n ∈ d, n.archived = false) := by
  constructor
  · intro d t h n hn
    have hcol : sortVal (camelToSnake "updated_at") =
        some (fun r => .int r.updated_at) := rfl
    simp only [getNotes, Option.getD_none, hcol] at h
    simp only [Option.some.injEq, Prod.mk.injEq] at h
    obtain ⟨hd, -⟩ := h
    subst hd
    obtain ⟨p, hp, hpn⟩ := List.mem_map.mp hn
    have hp2 := mem_insertionSortB.mp (mem_applyLimitOffset hp)
    have harch := (List.mem_filter.mp hp2).2
    simp only [Bool.and_eq_true, beq_iff_eq] at harch
    rw [← hpn]
    simp [mapRowToNote, harch]
  · intro q limit offset d t h n hn
    simp only [searchNotes] at h
    split at h
    · cases h
    · simp only [Except.ok.injEq, Prod.mk.injEq] at h
      obtain ⟨hd, -⟩ := h
      subst hd
      obtain ⟨p, hp, hpn⟩ := List.mem_map.mp hn
      have hp2 := mem_applyLimitOffset hp
      have harch := (List.mem_filter.mp hp2).2
      simp only [Bool.and_eq_true, beq_iff_eq] at harch
      rw [← hpn]
      simp [mapRowToNote, harch.2]

/-- Witness for C5 at a concrete input. -/
theorem unarchived_only_witness :
    (⟨"id1", "hello", "world", 10, 10, false⟩ : Note).archived = false :=
  (unarchived_only_in_default_list_and_search
    ⟨[(1, ⟨"id1", "hello", "world", 10, 10, 0⟩)],
     [⟨"hello", 1⟩, ⟨"world", 1⟩], 2⟩).1
    [⟨"id1", "hello", "world", 10, 10, false⟩] 1 rfl
    ⟨"id1", "hello", "world", 10, 10, false⟩ (by simp)

/-- The row-rewriting function of the update statement preserves the id
column, hence any predicate on it. -/
lemma updateRowFun_id (id : String) (data : UpdateNoteRequest) (now : Int)
    (x : Nat × NoteRow) :
    ((if x.2.id == id then (x.1, applyUpdateRow data now x.2) else x)).2.id
      = x.2.id := by
  split <;> rfl

/-- Characterization of `updateNote` when the note exists: the returned
note is the updated first matching row, the table is rewritten pointwise,
and the stored row for the id is the updated one. -/
lemma updateNote_found {id : String} {data : UpdateNoteRequest} {now : Int}
    {s : Store} {pr : Nat × NoteRow}
    (h : s.rows.find? (fun p => p.2.id == id) = some pr) :
    (updateNote id data now s).1 =
      some (mapRowToNote (applyUpdateRow data now pr.2)) ∧
    (updateNote id data now s).2.rows = s.rows.map
      (fun x => if x.2.id == id then (x.1, applyUpdateRow data now x.2)
                else x) ∧
    rowById (updateNote id data now s).2 id =
      some (applyUpdateRow data now pr.2) := by
  have hpres : ∀ x : Nat × NoteRow,
      ((if x.2.id == id then (x.1, applyUpdateRow data now x.2)
        else x).2.id == id) = (x.2.id == id) := by
    intro x
    rw [updateRowFun_id]
  have hget : getNoteById id s = some (mapRowToNote pr.2) := by
    simp [getNoteById, rowById, h]
  have hfind' : ((s.rows.map
      (fun x => if x.2.id == id then (x.1, applyUpdateRow data now x.2)
                else x)).find? (fun p => p.2.id == id)) =
      some (pr.1, applyUpdateRow data now pr.2) := by
    rw [find?_map_pres hpres, h]
    have hid := List.find?_some h
    rw [beq_iff_eq] at hid
    simp [hid]
  constructor
  · unfold updateNote
    rw [hget]
    simp only [getNoteById, rowById]
    rw [hfind']
    rfl
  constructor
  · unfold updateNote
    rw [hget]
  · unfold updateNote
    rw [hget]
    simp only [rowById]
    rw [hfind']
    rfl

/-- `updateNote` leaves rows with a different id untouched. -/
lemma updateNote_frame {id : String} {data : UpdateNoteRequest} {now : Int}
    {s : Store} (q : String) (hq : q ≠ id) :
    rowById (updateNote id data now s).2 q = rowById s q := by
  unfold updateNote
  cases hg : getNoteById id s with
  | none => rfl
  | some n =>
    have hpres : ∀ x : Nat × NoteRow,
        ((if x.2.id == id then (x.1, applyUpdateRow data now x.2)
          else x).2.id == q) = (x.2.id == q) := by
      intro x
      rw [updateRowFun_id]
    simp only [rowById]
    rw [find?_map_pres hpres]
    cases hfq : s.rows.find? (fun p => p.2.id == q) with
    | none => rfl
    | some x =>
      have hxq := List.find?_some hfq
      rw [beq_iff_eq] at hxq
      have hxid : (x.2.id == id) = false := by
        simp [hxq, hq]
      have hcond : ¬(x.2.id = id) := fun c => hq (hxq.symm.trans c)
      simp [hxid, hcond]

/-- C4: for an existing note, `updateNote` sets exactly the supplied
fields plus `updated_at` (set to the current time, hence advanced under a
monotone clock); id, `created_at`, and unsupplied fields keep their
values, and every other note is untouched. -/
theorem updateNote_frame_and_advance
    (id : String) (data : UpdateNoteRequest) (now : Int) (s : Store)
    (pr : Nat × NoteRow)
    (h : s.rows.find? (fun p => p.2.id == id) = some pr)
    (hts : pr.2.updated_at ≤ now) :
    (updateNote id data now s).1 =
      some (mapRowToNote (applyUpdateRow data now pr.2)) ∧
    (mapRowToNote (applyUpdateRow data now pr.2)).id = pr.2.id ∧
    (mapRowToNote (applyUpdateRow data now pr.2)).createdAt =
      pr.2.created_at ∧
    (mapRowToNote (applyUpdateRow data now pr.2)).updatedAt = now ∧
    pr.2.updated_at ≤ (mapRowToNote (applyUpdateRow data now pr.2)).updatedAt ∧
    (mapRowToNote (applyUpdateRow data now pr.2)).title =
      data.title.getD pr.2.title ∧
    (mapRowToNote (applyUpdateRow data now pr.2)).content =
      data.content.getD pr.2.content ∧
    (mapRowToNote (applyUpdateRow data now pr.2)).archived =
      data.archived.getD (pr.2.archived == 1) ∧
    ∀ q, q ≠ id →
      rowById (updateNote id data now s).2 q = rowById s q := by
  refine ⟨(updateNote_found h).1, rfl, rfl, rfl, hts, rfl, rfl, ?_,
    fun q hq => updateNote_frame q hq⟩
  cases hb : data.archived with
  | none => simp [mapRowToNote, applyUpdateRow, hb]
  | some b => cases b <;> simp [mapRowToNote, applyUpdateRow, hb]

/-- Witness for C4 at a concrete input. -/
theorem updateNote_frame_and_advance_witness :
    (updateNote "id1" { title := some "t2" } 30
      ⟨[(1, ⟨"id1", "hello", "world", 10, 10, 0⟩)],
       [⟨"hello", 1⟩, ⟨"world", 1⟩], 2⟩).1 =
      some ⟨"id1", "t2", "world", 10, 30, false⟩ :=
  (updateNote_frame_and_advance "id1" { title := some "t2" } 30
    ⟨[(1, ⟨"id1", "hello", "world", 10, 10, 0⟩)],
     [⟨"hello", 1⟩, ⟨"world", 1⟩], 2⟩
    (1, ⟨"id1", "hello", "world", 10, 10, 0⟩) rfl (by decide)).1

/-- C9 (amended): every nonempty subset of {title, content, archived},
with a valid title when supplied, passes validation and the PUT route
mutates the stored note in place. -/
theorem update_nonempty_subset_accepted
    (id : String) (req : UpdateNoteRequest) (now : Int) (s : Store)
    (pr : Nat × NoteRow)
    (hne : (req.title.isSome || req.content.isSome || req.archived.isSome)
      = true)
    (htitle : ∀ t, req.title = some t → titleValid t = true)
    (h : s.rows.find? (fun p => p.2.id == id) = some pr) :
    updateNoteSchemaValid req = true ∧
    putNoteRoute id req now s =
      (200, .note (mapRowToNote (applyUpdateRow req now pr.2)),
       (updateNote id req now s).2) ∧
    rowById (updateNote id req now s).2 id =
      some (applyUpdateRow req now pr.2) := by
  have hvalid : updateNoteSchemaValid req = true := by
    unfold updateNoteSchemaValid
    rw [Bool.and_eq_true]
    refine ⟨?_, hne⟩
    cases ht : req.title with
    | none => rfl
    | some t => exact htitle t ht
  refine ⟨hvalid, ?_, (@updateNote_found id req now s pr h).2.2⟩
  have h1 := (@updateNote_found id req now s pr h).1
  unfold putNoteRoute
  rw [if_pos hvalid]
  rcases hu : updateNote id req now s with ⟨r1, s2⟩
  rw [hu] at h1
  cases r1 with
  | none => cases h1
  | some m =>
    have hm := Option.some.inj h1
    subst hm
    rfl

/-- Witness for C9's amended theorem at a concrete input. -/
theorem update_nonempty_subset_accepted_witness :
    updateNoteSchemaValid { archived := some true } = true :=
  (update_nonempty_subset_accepted "id1" { archived := some true } 30
    ⟨[(1, ⟨"id1", "hello", "world", 10, 10, 0⟩)],
     [⟨"hello", 1⟩, ⟨"world", 1⟩], 2⟩
    (1, ⟨"id1", "hello", "world", 10, 10, 0⟩) rfl
    (fun t ht => by cases ht) rfl).1

/-- Counterexample to C9 as stated: the empty subset of fields — a legal
subset of {title, content, archived} — is rejected by validation, and the
PUT route answers it with 400 even for an existing note. -/
theorem update_empty_subset_rejected :
    updateNoteSchemaValid {} = false ∧
    putNoteRoute "id1" {} 30
      ⟨[(1, ⟨"id1", "hello", "world", 10, 10, 0⟩)],
       [⟨"hello", 1⟩, ⟨"world", 1⟩], 2⟩ =
      (400, .invalid,
       ⟨[(1, ⟨"id1", "hello", "world", 10, 10, 0⟩)],
        [⟨"hello", 1⟩, ⟨"world", 1⟩], 2⟩) := by
  exact ⟨rfl, rfl⟩

/-- An alphanumeric character is not a space. -/
lemma alphanum_ne_space {c : Char} (h : c.isAlphanum = true) :
    (c == ' ') = false := by
  by_cases hc : c = ' '
  · subst hc
    exact absurd h (by decide)
  · simp [hc]

/-- On space-free input, the space splitter returns the single chunk. -/
lemma splitSpacesAux_nonspace (l : List Char) :
    ∀ cur : List Char, (∀ c ∈ l, (c == ' ') = false) →
      splitSpacesAux l cur =
        if (cur.reverse ++ l).isEmpty then []
        else [String.mk (cur.reverse ++ l)] := by
  induction l with
  | nil =>
    intro cur _
    cases cur <;> simp [splitSpacesAux]
  | cons c rest ih =>
    intro cur hl
    have hc : (c == ' ') = false := hl c (List.mem_cons_self c rest)
    simp only [splitSpacesAux, hc]
    rw [ih (c :: cur) (fun d hd => hl d (List.mem_cons_of_mem c hd))]
    simp

/-- A bareword query parses as the single term it is. -/
lemma queryTerms_bareword {q : String} (hq : bareword q = true) :
    queryTerms q = [q] := by
  unfold bareword at hq
  rw [Bool.and_eq_true] at hq
  obtain ⟨hne, hall⟩ := hq
  have hd : q.data ≠ [] := by
    cases hdq : q.data with
    | nil => rw [hdq] at hne; exact absurd hne (by decide)
    | cons a l => simp
  unfold queryTerms
  rw [splitSpacesAux_nonspace q.data []
    (fun c hc => alphanum_ne_space (List.all_eq_true.mp hall c hc))]
  simp only [List.reverse_nil, List.nil_append]
  rw [if_neg (by simp [hd])]

/-- A posting of a different rowid survives one fts update trigger. -/
lemma mem_ftsUpdateTrigger_keep {rid : Nat} {nt nc : String}
    {fts : List Posting} {pst : Posting} (hmem : pst ∈ fts)
    (hne : pst.rowid ≠ rid) : pst ∈ ftsUpdateTrigger rid nt nc fts := by
  unfold ftsUpdateTrigger
  refine List.mem_append_left _ (List.mem_filter.mpr ⟨hmem, ?_⟩)
  have h1 : (pst.rowid == rid) = false := by simp [hne]
  simp [h1]

/-- The fts update trigger indexes every token of the new values. -/
lemma mem_ftsUpdateTrigger_new {rid : Nat} {nt nc : String}
    {fts : List Posting} {tok : String} (htok : tok ∈ docTokens nt nc) :
    ({ term := tok, rowid := rid } : Posting) ∈
      ftsUpdateTrigger rid nt nc fts :=
  List.mem_append_right _ (List.mem_map.mpr ⟨tok, htok, rfl⟩)

/-- A posting whose rowid no trigger firing targets survives the whole
statement. -/
lemma foldl_ftsUpd_keep {pst : Posting} :
    ∀ (us : List (Nat × NoteRow)) (fts : List Posting),
      pst ∈ fts → (∀ u ∈ us, u.1 ≠ pst.rowid) →
      pst ∈ us.foldl
        (fun fts u => ftsUpdateTrigger u.1 u.2.title u.2.content fts) fts := by
  intro us
  induction us with
  | nil => intro fts hmem _; exact hmem
  | cons u us ih =>
    intro fts hmem hall
    simp only [List.foldl_cons]
    exact ih _
      (mem_ftsUpdateTrigger_keep hmem
        (fun h => hall u (List.mem_cons_self u us) h.symm))
      (fun v hv => hall v (List.mem_cons_of_mem u hv))

/-- After the statement, every updated row's new tokens are indexed
(rowids of the firing set are pairwise distinct). -/
lemma foldl_ftsUpd_adds {u0 : Nat × NoteRow} :
    ∀ (us : List (Nat × NoteRow)) (fts : List Posting),
      (us.map (·.1)).Nodup → u0 ∈ us →
      ∀ tok ∈ docTokens u0.2.title u0.2.content,
        ({ term := tok, rowid := u0.1 } : Posting) ∈
          us.foldl
            (fun fts u => ftsUpdateTrigger u.1 u.2.title u.2.content fts)
            fts := by
  intro us
  induction us with
  | nil => intro fts _ h; cases h
  | cons v us ih =>
    intro fts hnd hmem tok htok
    rw [List.map_cons, List.nodup_cons] at hnd
    simp only [List.foldl_cons]
    rcases List.mem_cons.mp hmem with rfl | hmem2
    · refine foldl_ftsUpd_keep us _ (mem_ftsUpdateTrigger_new htok) ?_
      intro w hw h
      have h2 : w.1 = u0.1 := h
      exact hnd.1 (h2 ▸ List.mem_map_of_mem (·.1) hw)
    · exact ih _ hnd.2 hmem2 tok htok

/-- The rowids the update statement touches form a sublist of the table's
rowids. -/
lemma updated_rowids_sublist (id : String) (data : UpdateNoteRequest)
    (now : Int) :
    ∀ rows : List (Nat × NoteRow),
      List.Sublist
        ((rows.filterMap (fun p => if p.2.id == id then
          some (p.1, applyUpdateRow data now p.2) else none)).map (·.1))
        (rows.map (·.1)) := by
  intro rows
  induction rows with
  | nil => exact List.Sublist.refl _
  | cons p rows ih =>
    simp only [List.filterMap_cons]
    by_cases h : (p.2.id == id) = true
    · simp only [h, if_true, List.map_cons]
      exact ih.cons₂ _
    · simp only [h, if_false, List.map_cons]
      exact ih.cons _

/-- Every mutation preserves the structural store invariant, including
index coverage of the current documents. -/
lemma storeInv_step {s : Store} {op : Op} (hs : StoreInv s) :
    StoreInv (execOp s op) := by
  cases op with
  | create data freshId now =>
    simp only [execOp]
    unfold createNote
    by_cases hany : s.rows.any (fun p => p.2.id == freshId) = true
    · rw [if_pos hany]
      exact hs
    · rw [if_neg hany]
      refine ⟨?_, ?_, ?_⟩
      · intro p hp
        rcases List.mem_append.mp hp with h1 | h2
        · exact Nat.lt_succ_of_lt (hs.rowid_lt p h1)
        · rw [List.mem_singleton] at h2
          subst h2
          exact Nat.lt_succ_self _
      · rw [List.map_append, List.nodup_append]
        refine ⟨hs.rowid_nodup, List.nodup_singleton _, ?_⟩
        intro a ha hb
        simp only [List.map_cons, List.map_nil, List.mem_singleton] at hb
        subst hb
        obtain ⟨p, hp, hpa⟩ := List.mem_map.mp ha
        exact absurd (hpa ▸ hs.rowid_lt p hp) (lt_irrefl _)
      · intro p hp tok htok
        rcases List.mem_append.mp hp with h1 | h2
        · exact List.mem_append_left _ (hs.covers p h1 tok htok)
        · rw [List.mem_singleton] at h2
          subst h2
          exact List.mem_append_right _ (List.mem_map.mpr ⟨tok, htok, rfl⟩)
  | update id data now =>
    simp only [execOp]
    unfold updateNote
    cases hg : getNoteById id s with
    | none => exact hs
    | some n =>
      have hkey : ∀ x : Nat × NoteRow,
          (if x.2.id == id then (x.1, applyUpdateRow data now x.2)
           else x).1 = x.1 := by
        intro x
        split <;> rfl
      show StoreInv
        { rows := s.rows.map (fun p =>
            if p.2.id == id then (p.1, applyUpdateRow data now p.2) else p)
          fts := (s.rows.filterMap (fun p =>
              if p.2.id == id then some (p.1, applyUpdateRow data now p.2)
              else none)).foldl
            (fun fts u => ftsUpdateTrigger u.1 u.2.title u.2.content fts)
            s.fts
          nextRowid := s.nextRowid }
      refine ⟨?_, ?_, ?_⟩
      · intro p hp
        obtain ⟨x, hx, hxa⟩ := List.mem_map.mp hp
        rw [← hxa, hkey]
        exact hs.rowid_lt x hx
      · rw [List.map_map]
        have hmc : List.map ((fun x => x.1) ∘ fun p =>
            if p.2.id == id then (p.1, applyUpdateRow data now p.2) else p)
            s.rows = List.map (fun x => x.1) s.rows :=
          List.map_congr_left (fun x _ => hkey x)
        rw [hmc]
        exact hs.rowid_nodup
      · intro p hp tok htok
        obtain ⟨x, hx, hxa⟩ := List.mem_map.mp hp
        have hnd2 : ((s.rows.filterMap (fun p => if p.2.id == id then
            some (p.1, applyUpdateRow data now p.2) else none)).map
            (·.1)).Nodup :=
          hs.rowid_nodup.sublist (updated_rowids_sublist id data now s.rows)
        by_cases hid : (x.2.id == id) = true
        · rw [if_pos hid] at hxa
          subst hxa
          exact foldl_ftsUpd_adds _ _ hnd2
            (List.mem_filterMap.mpr ⟨x, hx, by rw [if_pos hid]⟩) tok htok
        · rw [if_neg hid] at hxa
          subst hxa
          refine foldl_ftsUpd_keep _ _ (hs.covers x hx tok htok) ?_
          intro u hu hcontra
          obtain ⟨y, hy, hyu⟩ := List.mem_filterMap.mp hu
          by_cases hyid : (y.2.id == id) = true
          · rw [if_pos hyid] at hyu
            have hyu2 := Option.some.inj hyu
            have hcontra2 : u.1 = x.1 := hcontra
            have hy1 : y.1 = x.1 := by rw [← hcontra2, ← hyu2]
            have hyx : y = x := key_inj hs.rowid_nodup hy hx hy1
            subst hyx
            exact hid hyid
          · rw [if_neg hyid] at hyu
            cases hyu
  | delete id =>
    simp only [execOp]
    unfold deleteNote
    show StoreInv
      { rows := s.rows.filter (fun p => !(p.2.id == id))
        fts := s.fts
        nextRowid := s.nextRowid }
    refine ⟨?_, ?_, ?_⟩
    · intro p hp
      exact hs.rowid_lt p (List.mem_filter.mp hp).1
    · exact hs.rowid_nodup.sublist
        ((List.filter_sublist s.rows).map (·.1))
    · intro p hp tok htok
      exact hs.covers p (List.mem_filter.mp hp).1 tok htok

/-- Every state reachable from the freshly initialized database satisfies
the structural invariant. -/
lemma storeInv_execOps (ops : List Op) :
    StoreInv (execOps initialStore ops) := by
  have hgen : ∀ (l : List Op) (s : Store), StoreInv s →
      StoreInv (execOps s l) := by
    intro l
    induction l with
    | nil => intro s hs; exact hs
    | cons op rest ih =>
      intro s hs
      exact ih _ (storeInv_step hs)
  exact hgen ops initialStore
    ⟨fun p hp => absurd hp (List.not_mem_nil p), List.nodup_nil,
     fun p hp => absurd hp (List.not_mem_nil p)⟩

/-- Counterexample to C1 as stated, in both directions.  Miss: a store
holds one non-archived note titled "hello"; the query "ell" is a
case-insensitive substring of the title, yet `searchNotes` returns no
rows — fts5 `match` is token-based.  Spurious hit: after the note's title
changes from "hello" to "goodbye", the query "hello" — a substring of
neither the current title nor the content — still returns the note,
because the external-content update trigger never de-indexed the old
title's tokens. -/
theorem search_substring_counterexample :
    substringCI "ell" "hello" = true ∧
    (execOps initialStore
        [.create ⟨"hello", "world"⟩ "id1" 10]).rows.all
      (fun p => p.2.archived == 0) = true ∧
    searchNotes "ell" 50 0
      (execOps initialStore [.create ⟨"hello", "world"⟩ "id1" 10]) =
      .ok ([], 0) ∧
    substringCI "hello" "goodbye" = false ∧
    substringCI "hello" "world" = false ∧
    searchNotes "hello" 50 0
      (execOps initialStore
        [.create ⟨"hello", "world"⟩ "idA" 10,
         .update "idA" { title := some "goodbye" } 20]) =
      .ok ([⟨"idA", "goodbye", "world", 10, 20, false⟩], 1) := by
  exact ⟨by decide, by decide, rfl, by decide, by decide, rfl⟩

/-- C1 (amended): in every reachable store, for a single-bareword query
whose matches fit in the default limit, `searchNotes` returns exactly the
non-archived notes whose rowid the index matches for the query token; and
every note whose current title or content contains the query as a whole
token (case-insensitively) is index-matched — the index may additionally
match stale tokens of superseded titles or contents. -/
theorem searchNotes_token_match (s : Store) (q : String)
    (hreach : ∃ ops, s = execOps initialStore ops)
    (hq : bareword q = true)
    (hcount : (s.rows.filter (fun p =>
        ftsMatchRowid q p.1 s.fts && p.2.archived == 0)).length ≤ 50) :
    searchNotes q 50 0 s = .ok
      ((s.rows.filter (fun p =>
          ftsMatchRowid q p.1 s.fts && p.2.archived == 0)).map
        (fun p => mapRowToNote p.2),
       (s.rows.filter (fun p =>
          ftsMatchRowid q p.1 s.fts && p.2.archived == 0)).length) ∧
    ∀ p ∈ s.rows, termMatches q p.2.title p.2.content = true →
      ftsMatchRowid q p.1 s.fts = true := by
  have hterms : queryTerms q = [q] := queryTerms_bareword hq
  constructor
  · have hvalid : validMatchExpr q = true := by
      simp [validMatchExpr, hterms, hq]
    unfold searchNotes
    rw [hvalid]
    simp only [Bool.not_true, Bool.false_eq_true, if_false]
    rw [applyLimitOffset_eq_self (by decide) (by simpa using hcount)]
  · obtain ⟨ops, rfl⟩ := hreach
    intro p hp htm
    unfold termMatches at htm
    have hmemtok : lowerStr q ∈ docTokens p.2.title p.2.content :=
      List.elem_iff.mp htm
    have hpost := (storeInv_execOps ops).covers p hp (lowerStr q) hmemtok
    unfold ftsMatchRowid
    rw [hterms]
    simp only [List.all_cons, List.all_nil, Bool.and_true]
    exact List.any_eq_true.mpr ⟨⟨lowerStr q, p.1⟩, hpost, by simp⟩

/-- Witness for C1's amended theorem at a concrete input. -/
theorem searchNotes_token_match_witness :
    searchNotes "HELLO" 50 0
      (execOps initialStore [.create ⟨"hello", "world"⟩ "id1" 10]) =
      .ok ([⟨"id1", "hello", "world", 10, 10, false⟩], 1) :=
  (searchNotes_token_match
    (execOps initialStore [.create ⟨"hello", "world"⟩ "id1" 10]) "HELLO"
    ⟨[.create ⟨"hello", "world"⟩ "id1" 10], rfl⟩
    (by decide) (by decide)).1

/-- Counterexample to C2 as stated, on both axes.  Archived notes are
indexed: after archiving the only note, no non-archived note remains yet
its postings are still there.  And the index is not an exact mirror: after
a title change the old title's token is still indexed, and after a delete
the dead note's postings survive — the external-content AFTER triggers
read the already-mutated `notes` row and cannot de-index the old
values. -/
theorem fts_keeps_archived_counterexample :
    ((execOps initialStore
        [.create ⟨"hello", "world"⟩ "id1" 10,
         .update "id1" { archived := some true } 20]).rows.filter
      (fun p => p.2.archived == 0)).length = 0 ∧
    (⟨"hello", 1⟩ : Posting) ∈ (execOps initialStore
        [.create ⟨"hello", "world"⟩ "id1" 10,
         .update "id1" { archived := some true } 20]).fts ∧
    (⟨"hello", 1⟩ : Posting) ∈ (execOps initialStore
        [.create ⟨"hello", "world"⟩ "idA" 10,
         .update "idA" { title := some "goodbye" } 20]).fts ∧
    (execOps initialStore
        [.create ⟨"hello", "world"⟩ "idB" 10, .delete "idB"]).rows = [] ∧
    (execOps initialStore
        [.create ⟨"hello", "world"⟩ "idB" 10, .delete "idB"]).fts =
      [⟨"hello", 1⟩, ⟨"world", 1⟩] := by
  exact ⟨rfl, by decide, by decide, rfl, rfl⟩

/-- C2 (amended): every mutation keeps, synchronously as part of the
mutating statement, a posting in `notes_fts` for every token of every
stored note's current title and content — archived notes included; the
index may also retain stale postings of superseded or deleted documents,
and the non-archived restriction is applied by the search query, not by
the index.  Stated as preservation of the invariant by each mutation,
and as the invariant holding in every state reachable from the
initialized database. -/
theorem fts_covers_current_notes :
    (∀ (s : Store) (op : Op), StoreInv s → StoreInv (execOp s op)) ∧
    ∀ ops : List Op, FtsCovers (execOps initialStore ops) :=
  ⟨fun _ _ hs => storeInv_step hs, fun ops => (storeInv_execOps ops).covers⟩

/-- Witness for C2's amended theorem at a concrete input. -/
theorem fts_covers_current_notes_witness :
    (⟨"hello", 1⟩ : Posting) ∈
      (execOp initialStore (.create ⟨"hello", "world"⟩ "id1" 10)).fts :=
  (fts_covers_current_notes.1 initialStore
      (.create ⟨"hello", "world"⟩ "id1" 10)
      ⟨fun p hp => absurd hp (List.not_mem_nil p), List.nodup_nil,
       fun p hp => absurd hp (List.not_mem_nil p)⟩).covers
    (1, ⟨"id1", "hello", "world", 10, 10, 0⟩) (by decide) "hello" (by decide)

/-! ### Timestamp invariant lemmas -/

/-- `rowById` unfolded. -/
lemma rowById_eq (s : Store) (id : String) :
    rowById s id = (s.rows.find? (fun p => p.2.id == id)).map (·.2) := rfl

/-- The timestamp invariant is monotone in the clock bound. -/
lemma inv_weaken {s : Store} {t t' : Int} (h : Inv s t) (hle : t ≤ t') :
    Inv s t' :=
  fun p hp => ⟨(h p hp).1, le_trans (h p hp).2 hle⟩

/-- The table after a create: unchanged on id collision, else the new row
is appended. -/
lemma execOp_create_rows (data : CreateNoteRequest) (freshId : String)
    (now : Int) (s : Store) :
    (execOp s (.create data freshId now)).rows = s.rows ∨
    (execOp s (.create data freshId now)).rows = s.rows ++
      [(s.nextRowid, ⟨freshId, data.title, data.content, now, now, 0⟩)] := by
  simp only [execOp]
  unfold createNote
  by_cases hany : s.rows.any (fun p => p.2.id == freshId) = true
  · rw [if_pos hany]
    exact .inl rfl
  · rw [if_neg hany]
    exact .inr rfl

/-- The table after an update: unchanged when the note is absent, else
rewritten pointwise. -/
lemma execOp_update_rows (id : String) (data : UpdateNoteRequest)
    (now : Int) (s : Store) :
    (execOp s (.update id data now)).rows = s.rows ∨
    (execOp s (.update id data now)).rows = s.rows.map
      (fun p => if p.2.id == id then (p.1, applyUpdateRow data now p.2)
                else p) := by
  simp only [execOp]
  unfold updateNote
  cases getNoteById id s
  · exact .inl rfl
  · exact .inr rfl

/-- The table after a delete: the matching rows are filtered out. -/
lemma execOp_delete_rows (id : String) (s : Store) :
    (execOp s (.delete id)).rows =
      s.rows.filter (fun p => !(p.2.id == id)) := rfl

/-- One operation at a later clock preserves the timestamp invariant. -/
lemma inv_step {s : Store} {t : Int} {op : Op} (hInv : Inv s t)
    (hle : t ≤ nextTime t op) : Inv (execOp s op) (nextTime t op) := by
  cases op with
  | create data freshId now =>
    intro p hp
    rcases execOp_create_rows data freshId now s with h | h
    · rw [h] at hp
      exact ⟨(hInv p hp).1, le_trans (hInv p hp).2 hle⟩
    · rw [h] at hp
      rcases List.mem_append.mp hp with h1 | h2
      · exact ⟨(hInv p h1).1, le_trans (hInv p h1).2 hle⟩
      · rw [List.mem_singleton] at h2
        subst h2
        exact ⟨le_refl _, le_refl _⟩
  | update id data now =>
    intro p hp
    rcases execOp_update_rows id data now s with h | h
    · rw [h] at hp
      exact ⟨(hInv p hp).1, le_trans (hInv p hp).2 hle⟩
    · rw [h] at hp
      obtain ⟨x, hx, hxa⟩ := List.mem_map.mp hp
      by_cases hc : (x.2.id == id) = true
      · rw [if_pos hc] at hxa
        subst hxa
        refine ⟨?_, le_refl _⟩
        exact le_trans (hInv x hx).1 (le_trans (hInv x hx).2 hle)
      · rw [if_neg hc] at hxa
        subst hxa
        exact ⟨(hInv x hx).1, le_trans (hInv x hx).2 hle⟩
  | delete id =>
    intro p hp
    rw [execOp_delete_rows] at hp
    exact hInv p (List.mem_filter.mp hp).1

/-- One operation never decreases a surviving note's `updated_at`. -/
lemma updated_mono_step {s : Store} {t : Int} (op : Op) (hInv : Inv s t)
    (hle : t ≤ nextTime t op) {id : String} {r r' : NoteRow}
    (h : rowById s id = some r) (h' : rowById (execOp s op) id = some r') :
    r.updated_at ≤ r'.updated_at := by
  rw [rowById_eq] at h h'
  cases op with
  | create data freshId now =>
    rcases execOp_create_rows data freshId now s with hrows | hrows
    · rw [hrows] at h'
      cases Option.some.inj (h.symm.trans h')
      exact le_refl _
    · rw [hrows] at h'
      obtain ⟨pr, hpr, hpr2⟩ := Option.map_eq_some'.mp h
      rw [find?_append_some hpr] at h'
      simp only [Option.map_some'] at h'
      rw [hpr2] at h'
      cases Option.some.inj h'
      exact le_refl _
  | update uid data now =>
    rcases execOp_update_rows uid data now s with hrows | hrows
    · rw [hrows] at h'
      cases Option.some.inj (h.symm.trans h')
      exact le_refl _
    · rw [hrows] at h'
      have hpres : ∀ x : Nat × NoteRow,
          ((if x.2.id == uid then (x.1, applyUpdateRow data now x.2)
            else x).2.id == id) = (x.2.id == id) := by
        intro x
        rw [updateRowFun_id]
      rw [find?_map_pres hpres] at h'
      obtain ⟨pr, hpr, hpr2⟩ := Option.map_eq_some'.mp h
      rw [hpr] at h'
      simp only [Option.map_some'] at h'
      by_cases hc : (pr.2.id == uid) = true
      · rw [if_pos hc] at h'
        cases Option.some.inj h'
        rw [← hpr2]
        exact le_trans (hInv pr (List.mem_of_find?_eq_some hpr)).2 hle
      · rw [if_neg hc] at h'
        cases Option.some.inj h'
        rw [← hpr2]
  | delete did =>
    rw [execOp_delete_rows] at h'
    by_cases hqd : id = did
    · subst hqd
      rw [find?_filter_drop (fun x hx => by rw [hx]; rfl)] at h'
      cases h'
    · rw [find?_filter_keep (fun x hx => by
        rw [beq_iff_eq] at hx
        simp [hx, fun hh => hqd hh])] at h'
      cases Option.some.inj (h.symm.trans h')
      exact le_refl _

/-- A note appearing under an id that was previously vacant was written by
the operation itself, at the operation's clock. -/
lemma fresh_created {s : Store} {t : Int} (op : Op) {id : String}
    {r' : NoteRow} (h : rowById s id = none)
    (h' : rowById (execOp s op) id = some r') :
    r'.updated_at = nextTime t op := by
  rw [rowById_eq] at h h'
  rw [Option.map_eq_none'] at h
  cases op with
  | create data freshId now =>
    rcases execOp_create_rows data freshId now s with hrows | hrows
    · rw [hrows, h] at h'
      cases h'
    · rw [hrows, find?_append_none h] at h'
      by_cases hpnew : (freshId == id) = true
      · simp only [List.find?_cons, hpnew] at h'
        cases Option.some.inj h'
        rfl
      · simp only [List.find?_cons, hpnew] at h'
        simp at h'
  | update uid data now =>
    rcases execOp_update_rows uid data now s with hrows | hrows
    · rw [hrows, h] at h'
      cases h'
    · rw [hrows] at h'
      have hpres : ∀ x : Nat × NoteRow,
          ((if x.2.id == uid then (x.1, applyUpdateRow data now x.2)
            else x).2.id == id) = (x.2.id == id) := by
        intro x
        rw [updateRowFun_id]
      rw [find?_map_pres hpres, h] at h'
      cases h'
  | delete did =>
    rw [execOp_delete_rows] at h'
    obtain ⟨pr, hpr, -⟩ := Option.map_eq_some'.mp h'
    have hmem := (List.mem_filter.mp (List.mem_of_find?_eq_some hpr)).1
    have hpa := List.find?_some hpr
    rw [List.find?_eq_none] at h
    exact absurd hpa (h pr hmem)

/-- The timestamp invariant holds after a chain of operations, bounded by
the final clock. -/
lemma inv_steps {s : Store} {t : Int} {ops : List Op} (hInv : Inv s t)
    (hch : timesChain t ops) :
    Inv (execOps s ops) (ops.foldl nextTime t) := by
  induction ops generalizing s t with
  | nil => exact hInv
  | cons op rest ih =>
    obtain ⟨hle, hch2⟩ := hch
    exact ih (inv_step hInv hle) hch2

/-- A note present after a chain of operations either survived from the
initial store with `updated_at` never lowered, or was written at or after
the initial clock. -/
lemma updated_lower {s : Store} {t : Int} {ops : List Op} (hInv : Inv s t)
    (hch : timesChain t ops) {id : String} {r' : NoteRow}
    (h' : rowById (execOps s ops) id = some r') :
    (∃ r, rowById s id = some r ∧ r.updated_at ≤ r'.updated_at) ∨
      t ≤ r'.updated_at := by
  induction ops generalizing s t with
  | nil => exact .inl ⟨r', h', le_refl _⟩
  | cons op rest ih =>
    obtain ⟨hle, hch2⟩ := hch
    rcases ih (inv_step hInv hle) hch2 h' with ⟨rm, hrm, hrmle⟩ | hlow
    · cases hrs : rowById s id with
      | some r =>
        exact .inl ⟨r, rfl,
          le_trans (updated_mono_step op hInv hle hrs hrm) hrmle⟩
      | none =>
        have hf := @fresh_created s t op id rm hrs hrm
        exact .inr (le_trans hle (hf ▸ hrmle))
    · exact .inr (le_trans hle hlow)

/-- C3: starting from a store whose timestamps satisfy the invariant at
clock `t`, any sequence of operations with monotone `Date.now()` readings
keeps `created_at ≤ updated_at` for every stored note, and never lowers
`updated_at` for any note that exists before and after — `createNote`
establishes the invariant and `updateNote` preserves it. -/
theorem timestamps_monotone (s : Store) (t : Int) (ops : List Op)
    (hInv : Inv s t) (hch : timesChain t ops) :
    (∀ p ∈ (execOps s ops).rows, p.2.created_at ≤ p.2.updated_at) ∧
    (∀ id r r', rowById s id = some r →
      rowById (execOps s ops) id = some r' →
      r.updated_at ≤ r'.updated_at) := by
  constructor
  · intro p hp
    exact (inv_steps hInv hch p hp).1
  · intro id r r' h h'
    rcases updated_lower hInv hch h' with ⟨rm, hrm, hle⟩ | hlow
    · rw [h] at hrm
      exact (Option.some.inj hrm) ▸ hle
    · rw [rowById_eq] at h
      obtain ⟨pr, hpr, hpr2⟩ := Option.map_eq_some'.mp h
      exact le_trans
        (hpr2 ▸ (hInv pr (List.mem_of_find?_eq_some hpr)).2) hlow

/-- Witness for C3 at a concrete input. -/
theorem timestamps_monotone_witness :
    (⟨"id1", "hello", "world", 5, 10, 0⟩ : NoteRow).updated_at ≤
      (⟨"id1", "hello", "w2", 5, 20, 0⟩ : NoteRow).updated_at :=
  (timestamps_monotone
    ⟨[(1, ⟨"id1", "hello", "world", 5, 10, 0⟩)],
     [⟨"hello", 1⟩, ⟨"world", 1⟩], 2⟩ 10
    [.update "id1" { content := some "w2" } 20]
    (fun p hp => by
      rw [List.mem_singleton] at hp
      subst hp
      exact ⟨by decide, by decide⟩)
    ⟨by decide, trivial⟩).2
    "id1" ⟨"id1", "hello", "world", 5, 10, 0⟩
    ⟨"id1", "hello", "w2", 5, 20, 0⟩ rfl rfl

end Nodash
